import Mathlib

/-!
Verification of the football-data ingestion engine (`src/app.py`).

The program is a pandas pipeline.  We shallowly embed a DataFrame of match
records as a `List` of rows; a cell that pandas may hold as a missing value
is embedded as `Option` (for typed columns) or as `PVal` (for object/string
columns, where both Python `None` and float `NaN` occur and render
differently under `astype(str)`).  All embedded functions are executable.
-/

namespace SoccerApp

/-- A cell of a pandas object (string) column: a real string, Python `None`,
or a float `NaN`.  `pd.isna` is true on the latter two; `astype(str)`
renders them as `"None"` and `"nan"` respectively. -/
inductive PVal where
  | str (s : String)
  | pyNone
  | nan
deriving DecidableEq, Repr

/-- `pd.isna` on an object cell. -/
def PVal.isna : PVal → Bool
  | .str _ => false
  | .pyNone => true
  | .nan => true

/-- `astype(str)` on an object cell: `None` renders as `"None"`, `NaN` as
`"nan"`. -/
def PVal.astypeStr : PVal → String
  | .str s => s
  | .pyNone => "None"
  | .nan => "nan"

/-- One raw row of an un-standardized DataFrame (the input shape of
`_standardize`).  `Date` holds the result of `pd.to_datetime(..., errors="coerce")`
as a naive-UTC timestamp modelled by an integer (`none` = `NaT`, i.e. the
date failed to parse).  `FTHG`/`FTAG` are `none` when the cell is missing
(`NaN`).  `Season` holds the result of `pd.to_numeric(..., errors="coerce")`
(`none` = unparseable). -/
structure RawRow where
  Date : Option Int
  HomeTeam : PVal
  AwayTeam : PVal
  FTHG : Option Int
  FTAG : Option Int
  Competition : PVal
  CompCode : PVal
  Season : Option Int
deriving DecidableEq, Repr

/-- One standardized match record: the output shape of `_standardize`
(the fixed seven-column schema plus `Season`). -/
structure Row where
  Date : Int
  HomeTeam : String
  AwayTeam : String
  FTHG : Int
  FTAG : Int
  Competition : String
  CompCode : String
  Season : Int
deriving DecidableEq, Repr

/-! ### Python `str.strip()` -/

/-- Whitespace test used by `str.strip()` (modelled by `Char.isWhitespace`). -/
def isPySpace (c : Char) : Bool := c.isWhitespace

/-- Drop leading whitespace characters. -/
def stripLeft (l : List Char) : List Char := l.dropWhile isPySpace

/-- Drop trailing whitespace characters. -/
def stripRight (l : List Char) : List Char := (l.reverse.dropWhile isPySpace).reverse

/-- Python `str.strip()`: drop leading and trailing whitespace. -/
def pyStrip (s : String) : String := ⟨stripRight (stripLeft s.data)⟩

theorem dropWhile_dropWhile (p : Char → Bool) :
    ∀ l : List Char, (l.dropWhile p).dropWhile p = l.dropWhile p := by
  intro l
  induction l with
  | nil => rfl
  | cons a l ih =>
    by_cases h : p a
    · simp [List.dropWhile_cons, h, ih]
    · simp [List.dropWhile_cons, h]

theorem exists_append_dropWhile (p : Char → Bool) :
    ∀ l : List Char, ∃ t, l = t ++ l.dropWhile p := by
  intro l
  induction l with
  | nil => exact ⟨[], rfl⟩
  | cons a l ih =>
    by_cases h : p a
    · obtain ⟨t, ht⟩ := ih
      exact ⟨a :: t, by simp [List.dropWhile_cons, h]; exact ht⟩
    · exact ⟨[], by simp [List.dropWhile_cons, h]⟩

theorem length_dropWhile_le' (p : Char → Bool) :
    ∀ l : List Char, (l.dropWhile p).length ≤ l.length := by
  intro l
  induction l with
  | nil => exact Nat.le_refl 0
  | cons a l ih =>
    by_cases h : p a
    · simp only [List.dropWhile_cons, h, if_true]
      exact Nat.le_succ_of_le ih
    · simp [List.dropWhile_cons, h]

theorem dropWhile_eq_self_of_append (p : Char → Bool) (q t : List Char)
    (h : (q ++ t).dropWhile p = q ++ t) : q.dropWhile p = q := by
  cases q with
  | nil => rfl
  | cons a q =>
    by_cases ha : p a
    · exfalso
      have h1 : ((a :: q) ++ t).dropWhile p = (q ++ t).dropWhile p := by
        simp [List.dropWhile_cons, ha]
      rw [h1] at h
      have h2 : (q ++ t).length < ((a :: q) ++ t).length := by simp
      have h3 : ((q ++ t).dropWhile p).length ≤ (q ++ t).length :=
        length_dropWhile_le' p (q ++ t)
      have h4 := congrArg List.length h
      omega
    · simp [List.dropWhile_cons, ha]

theorem stripLeft_stripLeft (l : List Char) : stripLeft (stripLeft l) = stripLeft l :=
  dropWhile_dropWhile isPySpace l

theorem stripRight_stripRight (l : List Char) : stripRight (stripRight l) = stripRight l := by
  unfold stripRight
  rw [List.reverse_reverse, dropWhile_dropWhile]

theorem exists_stripRight_append (l : List Char) : ∃ t, l = stripRight l ++ t := by
  obtain ⟨t, ht⟩ := exists_append_dropWhile isPySpace l.reverse
  refine ⟨t.reverse, ?_⟩
  have := congrArg List.reverse ht
  simpa [stripRight] using this

theorem stripLeft_stripRight_of_fixed (l : List Char) (h : stripLeft l = l) :
    stripLeft (stripRight l) = stripRight l := by
  obtain ⟨t, ht⟩ := exists_stripRight_append l
  apply dropWhile_eq_self_of_append isPySpace (stripRight l) t
  rw [← ht]
  exact h

theorem pyStrip_idem (s : String) : pyStrip (pyStrip s) = pyStrip s := by
  show (⟨stripRight (stripLeft (stripRight (stripLeft s.data)))⟩ : String) =
    ⟨stripRight (stripLeft s.data)⟩
  rw [stripLeft_stripRight_of_fixed _ (stripLeft_stripLeft s.data),
    stripRight_stripRight]

/-! ### `_standardize` -/

/-- The row-keeping test of `_standardize`'s
`dropna(subset=["Date","HomeTeam","AwayTeam","FTHG","FTAG"])` (after the
`Date` column has been coerced by `pd.to_datetime(..., errors="coerce")`,
already reflected in `RawRow.Date`). -/
def keepRow (r : RawRow) : Bool :=
  r.Date.isSome && !r.HomeTeam.isna && !r.AwayTeam.isna && r.FTHG.isSome && r.FTAG.isSome

/-- The per-row column coercions of `_standardize`: `astype(int)` on the
goal columns, `astype(str).str.strip()` on the four string columns, and
`pd.to_numeric(...).fillna(-1).astype(int)` on `Season`. -/
def coerceRow (r : RawRow) : Row :=
  { Date := r.Date.getD 0
    HomeTeam := pyStrip r.HomeTeam.astypeStr
    AwayTeam := pyStrip r.AwayTeam.astypeStr
    FTHG := r.FTHG.getD 0
    FTAG := r.FTAG.getD 0
    Competition := pyStrip r.Competition.astypeStr
    CompCode := pyStrip r.CompCode.astypeStr
    Season := r.Season.getD (-1) }

/-- Date ordering used by `sort_values("Date")`. -/
def dateLe (a b : Row) : Prop := a.Date ≤ b.Date

instance : DecidableRel dateLe := fun a b => inferInstanceAs (Decidable (a.Date ≤ b.Date))

instance : IsTotal Row dateLe := ⟨fun a b => Int.le_total a.Date b.Date⟩

instance : IsTrans Row dateLe := ⟨fun _ _ _ h1 h2 => Int.le_trans h1 h2⟩

/-- `sort_values("Date").reset_index(drop=True)`, modelled as a stable sort by
date (relative order of equal-date rows preserved). -/
def sortByDate (l : List Row) : List Row := List.insertionSort dateLe l

/-- `_standardize` (`src/app.py` lines 120-134): on `None` or an empty frame,
the well-typed empty frame; otherwise coerce the `Date` column (already
reflected in `RawRow.Date`), drop rows missing any of
Date/HomeTeam/AwayTeam/FTHG/FTAG, apply the column coercions, and sort by
date. -/
def _standardize (df : Option (List RawRow)) : List Row :=
  match df with
  | none => []
  | some rows =>
    if rows.isEmpty then []
    else sortByDate ((rows.filter keepRow).map coerceRow)

/-! ### Merge engine -/

/-- The seven-field identity key of
`drop_duplicates(subset=["CompCode","Season","Date","HomeTeam","AwayTeam","FTHG","FTAG"])`. -/
structure IdKey where
  compCode : String
  season : Int
  date : Int
  homeTeam : String
  awayTeam : String
  fthg : Int
  ftag : Int
deriving DecidableEq, Repr

/-- The identity key of a standardized row. -/
def identityKey (r : Row) : IdKey :=
  ⟨r.CompCode, r.Season, r.Date, r.HomeTeam, r.AwayTeam, r.FTHG, r.FTAG⟩

/-- `drop_duplicates(subset=..., keep="last")`: a row is kept iff no later row
shares its identity key; relative order of kept rows is preserved. -/
def dropDupKeepLast : List Row → List Row
  | [] => []
  | x :: xs =>
    if xs.any (fun y => identityKey y == identityKey x) then dropDupKeepLast xs
    else x :: dropDupKeepLast xs

/-- `merge_dedup` (`src/app.py` lines 139-147): standardize both inputs,
concatenate existing-then-incoming, drop duplicate identity keys keeping the
last occurrence, then sort by date. -/
def merge_dedup (existing incoming : Option (List RawRow)) : List Row :=
  let ex := _standardize existing
  let inc := _standardize incoming
  sortByDate (dropDupKeepLast (ex ++ inc))

/-- `existing_comp_seasons` (`src/app.py` lines 149-151): the
`(CompCode, Season)` pairs of the standardized dataset.  The Python `set` is
modelled as the list of pairs; the orchestrator only tests membership. -/
def existing_comp_seasons (df : Option (List RawRow)) : List (String × Int) :=
  (_standardize df).map fun r => (r.CompCode, r.Season)

/-! ### Payload normalizer -/

/-- The `fullTime` object of a score (`home`/`away` may be null). -/
structure FullTime where
  home : Option Int
  away : Option Int
deriving DecidableEq, Repr

/-- The `score` object of a raw match entry. -/
structure ScoreObj where
  fullTime : Option FullTime
deriving DecidableEq, Repr

/-- A team object of a raw match entry (`name` may be null). -/
structure TeamObj where
  name : Option String
deriving DecidableEq, Repr

/-- The `competition` object of a raw match entry. -/
structure CompObj where
  name : Option String
  code : Option String
deriving DecidableEq, Repr

/-- One raw match entry of an API payload.  `utcDate` holds the result of
`pd.to_datetime(m.get("utcDate"), utc=True, errors="coerce").tz_convert(None)`
as a naive-UTC timestamp (`none` = the raw value failed to parse). -/
structure Entry where
  status : Option String
  score : Option ScoreObj
  utcDate : Option Int
  homeTeam : Option TeamObj
  awayTeam : Option TeamObj
  competition : Option CompObj
deriving DecidableEq, Repr

/-- A raw API response document; `matchList` models
`payload.get("matches", [])` (the word `matches` is reserved in Lean). -/
structure Payload where
  matchList : List Entry
deriving DecidableEq, Repr

/-- `(m.get("score") or {}).get("fullTime") or {}`. -/
def fullTimeOf : Option ScoreObj → FullTime
  | some s => s.fullTime.getD ⟨none, none⟩
  | none => ⟨none, none⟩

/-- `(m.get("homeTeam") or {}).get("name")` (an object cell: null stays null). -/
def teamName : Option TeamObj → PVal
  | some t => match t.name with
    | some s => PVal.str s
    | none => PVal.pyNone
  | none => PVal.pyNone

/-- `(m.get("competition") or {}).get("name")`. -/
def compNameOf : Option CompObj → PVal
  | some c => match c.name with
    | some s => PVal.str s
    | none => PVal.pyNone
  | none => PVal.pyNone

/-- `(m.get("competition") or {}).get("code")`. -/
def compCodeOf : Option CompObj → PVal
  | some c => match c.code with
    | some s => PVal.str s
    | none => PVal.pyNone
  | none => PVal.pyNone

/-- The calendar year of a day number (days since 1970-01-01), by the
standard civil-from-days conversion; models `dt.year`. -/
def yearOfDay (z : Int) : Int :=
  let z' := z + 719468
  let era := z'.fdiv 146097
  let doe := z' - era * 146097
  let yoe := (doe - doe.fdiv 1460 + doe.fdiv 36524 - doe.fdiv 146096).fdiv 365
  let y := yoe + era * 400
  let doy := doe - (365 * yoe + yoe.fdiv 4 - yoe.fdiv 100)
  let mp := (5 * doy + 2).fdiv 153
  let m := if mp < 10 then mp + 3 else mp - 9
  if m ≤ 2 then y + 1 else y

/-- The day number (days since 1970-01-01) of a civil date, by the standard
days-from-civil conversion; grounds concrete calendar dates. -/
def daysFromCivil (y m d : Int) : Int :=
  let y' := if m ≤ 2 then y - 1 else y
  let era := y'.fdiv 400
  let yoe := y' - era * 400
  let mp := if 2 < m then m - 3 else m + 9
  let doy := (153 * mp + 2).fdiv 5 + d - 1
  let doe := yoe * 365 + yoe.fdiv 4 - yoe.fdiv 100 + doy
  era * 146097 + doe - 719468

/-- The per-entry loop of `_normalize_payload`, mirroring the source's
`continue` structure: skip unless status is exactly FINISHED, skip unless
both full-time scores are present, skip unless the timestamp parsed. -/
def normalizeLoop (season_hint : Option Int) : List Entry → List RawRow
  | [] => []
  | m :: rest =>
    if m.status = some "FINISHED" then
      match (fullTimeOf m.score).home, (fullTimeOf m.score).away with
      | some h, some a =>
        match m.utcDate with
        | some dt =>
          { Date := some dt
            HomeTeam := teamName m.homeTeam
            AwayTeam := teamName m.awayTeam
            FTHG := some h
            FTAG := some a
            Competition := compNameOf m.competition
            CompCode := compCodeOf m.competition
            Season := some (season_hint.getD (yearOfDay dt)) } :: normalizeLoop season_hint rest
        | none => normalizeLoop season_hint rest
      | _, _ => normalizeLoop season_hint rest
    else normalizeLoop season_hint rest

/-- `_normalize_payload` (`src/app.py` lines 93-118). -/
def _normalize_payload (payload : Payload) (season_hint : Option Int) : List RawRow :=
  normalizeLoop season_hint payload.matchList

/-! ### Remote client (query shapes) -/

/-- A remote error (non-success HTTP status, network fault, or timeout):
what `r.raise_for_status()` / `requests` raise. -/
inductive RemoteError where
  | httpError (msg : String)
deriving DecidableEq, Repr

/-- The query parameters built by `fetch_matches_by_date`
(`src/app.py` lines 72-88): `dateFrom`, `dateTo`, `status=FINISHED` always;
`competitions` only when the argument is truthy (non-`None`, non-empty). -/
structure DateQuery where
  dateFrom : Int
  dateTo : Int
  status : String
  competitions : Option String
deriving DecidableEq, Repr

/-- The pure parameter-building content of `fetch_matches_by_date`; the HTTP
round-trip itself is modelled by an oracle. -/
def fetch_matches_by_date_params (date_from date_to : Int)
    (competitions : Option String) : DateQuery :=
  { dateFrom := date_from
    dateTo := date_to
    status := "FINISHED"
    competitions :=
      match competitions with
      | some c => if c = "" then none else some c
      | none => none }

/-! ### Incremental ingestion orchestrator -/

/-- The nested per-pair fetch loop of `ingest_missing_seasons`: skip pairs
already present; on the first remote error the whole loop aborts (the Python
exception propagates); otherwise accumulate non-empty normalized parts.
Returns the accumulated parts (or the error) together with the number of
remote calls issued.  `time.sleep(sleep_s)` is a pure delay with no data
effect and is not modelled. -/
def ingestLoop (fetch : String → Int → Except RemoteError Payload)
    (havePairs : List (String × Int)) :
    List (String × Int) → Except RemoteError (List (List RawRow)) × Nat
  | [] => (Except.ok [], 0)
  | (code, season) :: rest =>
    if (code, season) ∈ havePairs then ingestLoop fetch havePairs rest
    else
      match fetch code season with
      | Except.error e => (Except.error e, 1)
      | Except.ok payload =>
        let part := _normalize_payload payload (some season)
        let rn := ingestLoop fetch havePairs rest
        (match rn.1 with
         | Except.error e => Except.error e
         | Except.ok parts => Except.ok (if part.isEmpty then parts else part :: parts),
         rn.2 + 1)

/-- `ingest_missing_seasons` (`src/app.py` lines 156-174), with the remote
client injected as an oracle `fetch`.  Returns the resulting dataset (or the
propagated remote error) and the number of remote calls issued.  The nested
`for code in codes: for season in seasons:` loops are flattened codes-outer,
seasons-inner. -/
def ingest_missing_seasons (fetch : String → Int → Except RemoteError Payload)
    (df_hist : Option (List RawRow)) (codes : List String) (seasons : List Int) :
    Except RemoteError (List Row) × Nat :=
  let havePairs := existing_comp_seasons df_hist
  let pairs := codes.flatMap fun code => seasons.map fun season => (code, season)
  let rn := ingestLoop fetch havePairs pairs
  (match rn.1 with
   | Except.error e => Except.error e
   | Except.ok parts =>
     let incoming := if parts.isEmpty then none else some parts.flatten
     Except.ok (merge_dedup df_hist incoming), rn.2)

/-! ### Recency refresher -/

/-- `refresh_last_7_days` (`src/app.py` lines 176-185), with
`datetime.utcnow().date()` injected as the day number `today` and the remote
client as an oracle keyed by the built query.  Returns the merged dataset and
the list of queries issued (to state call-count and query-shape claims). -/
def refresh_last_7_days (fetchOracle : DateQuery → Payload) (today : Int)
    (df_hist : Option (List RawRow)) (codes : List String) :
    List Row × List DateQuery :=
  let date_to := today
  let date_from := date_to - 7
  let q := fetch_matches_by_date_params date_from date_to
    (some (String.intercalate "," codes))
  let payload := fetchOracle q
  let incoming := _normalize_payload payload none
  (merge_dedup df_hist (some incoming), [q])

/-! ### Durable cache -/

/-- One cell of the CSV cache file as it comes back from
`pd.read_csv`: a text cell, a numeric cell, or a serialized timestamp cell.
`to_csv`/`read_csv` value rendering and re-parsing of numbers and timestamps
is a pandas library round trip taken at value level; the behavior modelled
explicitly is the string-column sharp edge: `read_csv` turns a cell whose
text is one of the default NA sentinels (or is empty) into `NaN`. -/
inductive CsvCell where
  | str (s : String)
  | int (n : Int)
  | dt (d : Int)
deriving DecidableEq, Repr

/-- The default `read_csv` NA sentinel strings (the common ones). -/
def naSentinels : List String :=
  ["", "NA", "N/A", "NaN", "nan", "NULL", "null", "None", "n/a", "<NA>", "#N/A"]

/-- Reading a cell of an object (string) column back from the CSV file. -/
def readStrCell : CsvCell → PVal
  | .str s => if s ∈ naSentinels then PVal.nan else PVal.str s
  | .int n => PVal.str (toString n)
  | .dt d => PVal.str (toString d)

/-- Reading a cell of the `Date` column back from the CSV file (what
`_standardize`'s `pd.to_datetime(..., errors="coerce")` then yields). -/
def readDateCell : CsvCell → Option Int
  | .dt d => some d
  | _ => none

/-- Reading a cell of an integer column back from the CSV file. -/
def readIntCell : CsvCell → Option Int
  | .int n => some n
  | _ => none

/-- One data line of the CSV cache file, in the written column order. -/
structure CsvRec where
  date : CsvCell
  home : CsvCell
  away : CsvCell
  fthg : CsvCell
  ftag : CsvCell
  comp : CsvCell
  code : CsvCell
  season : CsvCell
deriving DecidableEq, Repr

/-- `to_csv`: one standardized row written as one CSV line. -/
def writeRec (r : Row) : CsvRec :=
  { date := .dt r.Date
    home := .str r.HomeTeam
    away := .str r.AwayTeam
    fthg := .int r.FTHG
    ftag := .int r.FTAG
    comp := .str r.Competition
    code := .str r.CompCode
    season := .int r.Season }

/-- `read_csv`: one CSV line read back as one raw row. -/
def readRec (c : CsvRec) : RawRow :=
  { Date := readDateCell c.date
    HomeTeam := readStrCell c.home
    AwayTeam := readStrCell c.away
    FTHG := readIntCell c.fthg
    FTAG := readIntCell c.ftag
    Competition := readStrCell c.comp
    CompCode := readStrCell c.code
    Season := readIntCell c.season }

/-- `save_cache` (`src/app.py` lines 195-196): standardize, then write. -/
def save_cache (df : Option (List RawRow)) : List CsvRec :=
  (_standardize df).map writeRec

/-- `load_cache` (`src/app.py` lines 190-193): `none` (absent file) yields
`none`; otherwise read the rows and standardize. -/
def load_cache (file : Option (List CsvRec)) : Option (List Row) :=
  match file with
  | none => none
  | some recs => some (_standardize (some (recs.map readRec)))

/-- A standardized row viewed again as a raw DataFrame row (a standardized
frame fed back into `_standardize`/`merge_dedup`). -/
def Row.toRaw (r : Row) : RawRow :=
  { Date := some r.Date
    HomeTeam := PVal.str r.HomeTeam
    AwayTeam := PVal.str r.AwayTeam
    FTHG := some r.FTHG
    FTAG := some r.FTAG
    Competition := PVal.str r.Competition
    CompCode := PVal.str r.CompCode
    Season := some r.Season }

/-! ### The ingest button (UI wiring around `ingest_missing_seasons`) -/

/-- Session + durable-cache state held by the interactive layer. -/
structure AppState where
  sessionDf : Option (List Row)
  cacheFile : Option (List CsvRec)
deriving DecidableEq, Repr

/-- `st.session_state.get("fd_hist", load_cache(cache_path))`. -/
def currentDf (st : AppState) : Option (List RawRow) :=
  match st.sessionDf with
  | some rows => some (rows.map Row.toRaw)
  | none =>
    match load_cache st.cacheFile with
    | some rows => some (rows.map Row.toRaw)
    | none => none

/-- The Ingest Missing Seasons button (`src/app.py` lines 242-247): run the
orchestrator; on success store the result in the session and save it to the
cache; a raised `RemoteError` propagates out before either write, leaving
the state untouched. -/
def ingestButton (fetch : String → Int → Except RemoteError Payload)
    (codes : List String) (seasons : List Int) (st : AppState) : AppState :=
  let df := currentDf st
  match ingest_missing_seasons fetch df codes seasons with
  | (Except.ok newDf, _) =>
    { sessionDf := some newDf
      cacheFile := some (save_cache (some (newDf.map Row.toRaw))) }
  | (Except.error _, _) => st

/-! ### Supporting lemmas -/

theorem sortByDate_perm (l : List Row) : List.Perm (sortByDate l) l :=
  List.perm_insertionSort dateLe l

theorem sortByDate_sorted (l : List Row) : List.Sorted dateLe (sortByDate l) :=
  List.sorted_insertionSort dateLe l

theorem sortByDate_eq_of_sorted {l : List Row} (h : List.Sorted dateLe l) :
    sortByDate l = l :=
  List.Sorted.insertionSort_eq h

theorem standardize_sorted (df : Option (List RawRow)) :
    List.Sorted dateLe (_standardize df) := by
  match df with
  | none => exact List.sorted_nil
  | some [] => exact List.sorted_nil
  | some (a :: t) =>
    show List.Sorted dateLe (if (a :: t).isEmpty then [] else _)
    rw [if_neg (by simp)]
    exact sortByDate_sorted _

theorem mem_standardize {rows : List RawRow} {r' : Row} :
    r' ∈ _standardize (some rows) ↔ ∃ r₀ ∈ rows, keepRow r₀ = true ∧ r' = coerceRow r₀ := by
  match rows with
  | [] => simp [_standardize]
  | a :: t =>
    show r' ∈ (if (a :: t).isEmpty then [] else sortByDate _) ↔ _
    rw [if_neg (by simp)]
    rw [(sortByDate_perm _).mem_iff]
    constructor
    · intro hm
      obtain ⟨r₀, hr₀, rfl⟩ := List.mem_map.mp hm
      obtain ⟨hmem, hkeep⟩ := List.mem_filter.mp hr₀
      exact ⟨r₀, hmem, hkeep, rfl⟩
    · rintro ⟨r₀, hmem, hkeep, rfl⟩
      exact List.mem_map.mpr ⟨r₀, List.mem_filter.mpr ⟨hmem, hkeep⟩, rfl⟩

theorem exists_coerce_of_mem_standardize {df : Option (List RawRow)} {r : Row}
    (h : r ∈ _standardize df) : ∃ r₀, r = coerceRow r₀ := by
  match df with
  | none => exact absurd h (List.not_mem_nil r)
  | some rows =>
    obtain ⟨r₀, _, _, hr⟩ := mem_standardize.mp h
    exact ⟨r₀, hr⟩

theorem keepRow_toRaw (r : Row) : keepRow r.toRaw = true := by
  simp [keepRow, Row.toRaw, PVal.isna]

theorem coerceRow_toRaw_coerce (r₀ : RawRow) :
    coerceRow (Row.toRaw (coerceRow r₀)) = coerceRow r₀ := by
  simp [coerceRow, Row.toRaw, PVal.astypeStr, pyStrip_idem]

/-- Feeding back a date-sorted list of coerced rows through `_standardize`
is the identity. -/
theorem standardize_of_fixed (S : List Row) (hsort : List.Sorted dateLe S)
    (hfix : ∀ r ∈ S, coerceRow (Row.toRaw r) = r) :
    _standardize (some (S.map Row.toRaw)) = S := by
  match S with
  | [] => rfl
  | a :: t =>
    show (if ((a :: t).map Row.toRaw).isEmpty then [] else sortByDate _) = _
    rw [if_neg (by simp)]
    rw [List.filter_eq_self.mpr (by
      intro x hx
      obtain ⟨r, _, rfl⟩ := List.mem_map.mp hx
      exact keepRow_toRaw r)]
    rw [List.map_map]
    have hid : (a :: t).map (coerceRow ∘ Row.toRaw) = a :: t := by
      have h1 : (a :: t).map (coerceRow ∘ Row.toRaw) = (a :: t).map id :=
        List.map_congr_left (fun r hr => hfix r hr)
      rw [h1, List.map_id]
    rw [hid]
    exact sortByDate_eq_of_sorted hsort

/-- Feeding a standardized frame back through `_standardize` is the
identity: the common core of the idempotence, merge-identity and cache
round-trip claims. -/
theorem standardize_map_toRaw (df : Option (List RawRow)) :
    _standardize (some ((_standardize df).map Row.toRaw)) = _standardize df := by
  refine standardize_of_fixed _ (standardize_sorted df) ?_
  intro r hr
  obtain ⟨r₀, rfl⟩ := exists_coerce_of_mem_standardize hr
  exact coerceRow_toRaw_coerce r₀

theorem dropDupKeepLast_eq_self : ∀ {l : List Row},
    (l.map identityKey).Nodup → dropDupKeepLast l = l := by
  intro l
  induction l with
  | nil => intro _; rfl
  | cons x xs ih =>
    intro h
    rw [List.map_cons, List.nodup_cons] at h
    obtain ⟨hx, hxs⟩ := h
    have hany : xs.any (fun y => identityKey y == identityKey x) = false := by
      rw [List.any_eq_false]
      intro y hy
      intro hbeq
      exact hx (List.mem_map.mpr ⟨y, hy, eq_of_beq hbeq⟩)
    unfold dropDupKeepLast
    rw [hany]
    simp [ih hxs]

theorem getLast?_cons_of_ne_nil (a : Row) {l : List Row} (h : l ≠ []) :
    (a :: l).getLast? = l.getLast? := by
  match l with
  | [] => exact absurd rfl h
  | b :: t => exact List.getLast?_cons_cons

theorem filterKey_cons_pos {K : IdKey}
    {x : Row} (xs : List Row) (h : identityKey x = K) :
    (x :: xs).filter (fun r => identityKey r == K) =
      x :: xs.filter (fun r => identityKey r == K) := by
  simp [List.filter_cons, h]

theorem filterKey_cons_neg {K : IdKey}
    {x : Row} (xs : List Row) (h : identityKey x ≠ K) :
    (x :: xs).filter (fun r => identityKey r == K) =
      xs.filter (fun r => identityKey r == K) := by
  simp [List.filter_cons, h]

theorem filter_dropDupKeepLast (K : IdKey) :
    ∀ l : List Row,
      (dropDupKeepLast l).filter (fun r => identityKey r == K) =
        ((l.filter (fun r => identityKey r == K)).getLast?).toList := by
  intro l
  induction l with
  | nil => rfl
  | cons x xs ih =>
    unfold dropDupKeepLast
    by_cases hany : xs.any (fun y => identityKey y == identityKey x) = true
    · rw [hany]
      simp only [if_true]
      rw [ih]
      by_cases hK : identityKey x = K
      · have hne : xs.filter (fun r => identityKey r == K) ≠ [] := by
          obtain ⟨y, hy, hbeq⟩ := List.any_eq_true.mp hany
          have hyK : identityKey y = K := (eq_of_beq hbeq).trans hK
          intro hnil
          have hmem : y ∈ xs.filter (fun r => identityKey r == K) :=
            List.mem_filter.mpr ⟨hy, beq_iff_eq.mpr hyK⟩
          rw [hnil] at hmem
          exact absurd hmem (List.not_mem_nil y)
        rw [filterKey_cons_pos xs hK, getLast?_cons_of_ne_nil x hne]
      · rw [filterKey_cons_neg xs hK]
    · rw [Bool.not_eq_true] at hany
      rw [hany]
      simp only [Bool.false_eq_true, if_false]
      by_cases hK : identityKey x = K
      · have hnil : xs.filter (fun r => identityKey r == K) = [] := by
          rw [List.filter_eq_nil_iff]
          intro y hy hbeq
          have hyx : identityKey y = identityKey x := (eq_of_beq hbeq).trans hK.symm
          have hb : (identityKey y == identityKey x) = true := beq_of_eq hyx
          have hc : (xs.any fun z => identityKey z == identityKey x) = true :=
            List.any_eq_true.mpr ⟨y, hy, hb⟩
          rw [hany] at hc
          exact Bool.false_ne_true hc
        rw [filterKey_cons_pos _ hK, ih, hnil, filterKey_cons_pos xs hK, hnil]
        rfl
      · rw [filterKey_cons_neg _ hK, ih, filterKey_cons_neg xs hK]

theorem ingestLoop_all_skipped (fetch : String → Int → Except RemoteError Payload)
    (hp : List (String × Int)) :
    ∀ pairs : List (String × Int), (∀ p ∈ pairs, p ∈ hp) →
      ingestLoop fetch hp pairs = (Except.ok [], 0) := by
  intro pairs
  induction pairs with
  | nil => intro _; rfl
  | cons p rest ih =>
    intro h
    obtain ⟨c, s⟩ := p
    have hin : (c, s) ∈ hp := h (c, s) (List.mem_cons_self _ _)
    have hrest := ih (fun q hq => h q (List.mem_cons_of_mem _ hq))
    simp [ingestLoop, hin, hrest]

theorem ingestLoop_error_of_mem (fetch : String → Int → Except RemoteError Payload)
    (hp : List (String × Int)) :
    ∀ (pairs : List (String × Int)) (c : String) (s : Int) (e : RemoteError),
      (c, s) ∈ pairs → (c, s) ∉ hp → fetch c s = Except.error e →
      ∃ e', (ingestLoop fetch hp pairs).1 = Except.error e' := by
  intro pairs
  induction pairs with
  | nil =>
    intro c s e hmem _ _
    exact absurd hmem (List.not_mem_nil _)
  | cons p rest ih =>
    intro c s e hmem hnot herr
    obtain ⟨c₀, s₀⟩ := p
    rw [List.mem_cons] at hmem
    by_cases hskip : (c₀, s₀) ∈ hp
    · have hrest : (c, s) ∈ rest := by
        rcases hmem with heq | h
        · exact absurd (heq ▸ hskip) hnot
        · exact h
      obtain ⟨e', he'⟩ := ih c s e hrest hnot herr
      exact ⟨e', by simpa [ingestLoop, hskip] using he'⟩
    · cases hf : fetch c₀ s₀ with
      | error e₀ => exact ⟨e₀, by simp [ingestLoop, hskip, hf]⟩
      | ok payload =>
        have hrest : (c, s) ∈ rest := by
          rcases hmem with heq | h
          · exfalso
            have hc : c = c₀ := congrArg Prod.fst heq
            have hs : s = s₀ := congrArg Prod.snd heq
            rw [hc, hs, hf] at herr
            exact Except.noConfusion herr
          · exact h
        obtain ⟨e', he'⟩ := ih c s e hrest hnot herr
        exact ⟨e', by simp [ingestLoop, hskip, hf, he']⟩

/-- The Normalizer's emission test, as the spec states it: status is
FINISHED, both full-time scores are present, and the timestamp parsed. -/
def emitTest (m : Entry) : Bool :=
  m.status == some "FINISHED" && (fullTimeOf m.score).home.isSome &&
    (fullTimeOf m.score).away.isSome && m.utcDate.isSome

/-- The record an emitted entry turns into (fields as extracted by the
source loop; the `getD` defaults are never reached on emitted entries). -/
def entryRecord (hint : Option Int) (m : Entry) : RawRow :=
  { Date := some (m.utcDate.getD 0)
    HomeTeam := teamName m.homeTeam
    AwayTeam := teamName m.awayTeam
    FTHG := some ((fullTimeOf m.score).home.getD 0)
    FTAG := some ((fullTimeOf m.score).away.getD 0)
    Competition := compNameOf m.competition
    CompCode := compCodeOf m.competition
    Season := some (hint.getD (yearOfDay (m.utcDate.getD 0))) }

theorem normalizeLoop_eq (hint : Option Int) :
    ∀ ms : List Entry,
      normalizeLoop hint ms = (ms.filter emitTest).map (entryRecord hint) := by
  intro ms
  induction ms with
  | nil => rfl
  | cons m rest ih =>
    by_cases hst : m.status = some "FINISHED"
    · cases hh : (fullTimeOf m.score).home with
      | none => simp [normalizeLoop, hst, hh, List.filter_cons, emitTest, ih]
      | some hv =>
        cases ha : (fullTimeOf m.score).away with
        | none => simp [normalizeLoop, hst, hh, ha, List.filter_cons, emitTest, ih]
        | some av =>
          cases hd : m.utcDate with
          | none => simp [normalizeLoop, hst, hh, ha, hd, List.filter_cons, emitTest, ih]
          | some dt =>
            simp [normalizeLoop, hst, hh, ha, hd, List.filter_cons, emitTest, ih,
              entryRecord]
    · simp [normalizeLoop, hst, List.filter_cons, emitTest, ih]

theorem ingest_fst_error (fetch : String → Int → Except RemoteError Payload)
    (df_hist : Option (List RawRow)) (codes : List String) (seasons : List Int)
    (e' : RemoteError)
    (h : (ingestLoop fetch (existing_comp_seasons df_hist)
      (codes.flatMap fun code => seasons.map fun season => (code, season))).1 =
        Except.error e') :
    (ingest_missing_seasons fetch df_hist codes seasons).1 = Except.error e' := by
  simp only [ingest_missing_seasons]
  rw [h]

theorem keepRow_iff (r₀ : RawRow) :
    keepRow r₀ = true ↔
      r₀.Date ≠ none ∧ r₀.HomeTeam.isna = false ∧ r₀.AwayTeam.isna = false ∧
        r₀.FTHG ≠ none ∧ r₀.FTAG ≠ none := by
  simp [keepRow, Bool.and_eq_true, Bool.not_eq_true', Option.isSome_iff_ne_none,
    and_assoc]

/-! ### Sample data for witnesses and counterexamples -/

/-- A well-formed raw row: Premier League, season 2022. -/
def sampleA : RawRow :=
  { Date := some 19700
    HomeTeam := PVal.str "A"
    AwayTeam := PVal.str "B"
    FTHG := some 2
    FTAG := some 1
    Competition := PVal.str "X"
    CompCode := PVal.str "PL"
    Season := some 2022 }

/-- Same identity key as `sampleA` but a different competition display name
(the display name is not part of the identity key). -/
def sampleB : RawRow :=
  { sampleA with Competition := PVal.str "Y" }

/-- A raw row whose competition code is Python `None` and whose competition
display name is `NaN` (both outside the dropna subset). -/
def nullCodeRow : RawRow :=
  { Date := some 19701
    HomeTeam := PVal.str "A"
    AwayTeam := PVal.str "B"
    FTHG := some 0
    FTAG := some 3
    Competition := PVal.nan
    CompCode := PVal.pyNone
    Season := none }

/-- A fetch oracle that always fails remotely. -/
def failFetch : String → Int → Except RemoteError Payload :=
  fun _ _ => Except.error (RemoteError.httpError "500")

/-- A session state holding one standardized PL-2022 row and no cache file. -/
def sampleState : AppState :=
  { sessionDf := some [coerceRow sampleA], cacheFile := none }

/-- A finished entry with both full-time scores and a parsing timestamp. -/
def finishedEntry : Entry :=
  { status := some "FINISHED"
    score := some ⟨some ⟨some 2, some 1⟩⟩
    utcDate := some 19800
    homeTeam := some ⟨some "H"⟩
    awayTeam := some ⟨some "A"⟩
    competition := some ⟨some "X", some "PL"⟩ }

/-- A finished entry whose away full-time score is missing. -/
def missingScoreEntry : Entry :=
  { status := some "FINISHED"
    score := some ⟨some ⟨some 2, none⟩⟩
    utcDate := some 19800
    homeTeam := some ⟨some "H"⟩
    awayTeam := some ⟨some "A"⟩
    competition := some ⟨some "X", some "PL"⟩ }

/-- The payload of the Normalizer drop-rule example: one complete finished
match and one finished match missing a score. -/
def examplePayload : Payload := ⟨[finishedEntry, missingScoreEntry]⟩

/-! ### Claims -/

/-- C1, counterexample: the claim includes datasets whose rows share an
identity key, but there `merge_dedup(D, empty)` deduplicates while
`_standardize(D)` keeps both rows, so they differ. -/
theorem merge_empty_ne_standardize_on_dup :
    merge_dedup (some [sampleA, sampleA]) none ≠
      _standardize (some [sampleA, sampleA]) := by
  decide

/-- C1 (amended): merging a dataset with the empty collection equals
standardizing it, for every dataset whose standardization has pairwise
distinct identity keys (in particular the inputs need not be sorted). -/
theorem merge_empty_eq_standardize (D : Option (List RawRow))
    (h : ((_standardize D).map identityKey).Nodup) :
    merge_dedup D none = _standardize D := by
  show sortByDate (dropDupKeepLast (_standardize D ++ _standardize none)) =
    _standardize D
  rw [show _standardize none = [] from rfl, List.append_nil,
    dropDupKeepLast_eq_self h]
  exact sortByDate_eq_of_sorted (standardize_sorted D)

/-- Witness for C1 (amended) at a concrete unsorted two-row dataset. -/
theorem merge_empty_eq_standardize_witness :
    ((_standardize (some [sampleA, nullCodeRow])).map identityKey).Nodup ∧
      merge_dedup (some [sampleA, nullCodeRow]) none =
        _standardize (some [sampleA, nullCodeRow]) :=
  ⟨by decide, merge_empty_eq_standardize (some [sampleA, nullCodeRow]) (by decide)⟩

/-- C2: if the standardization of `D2` contains exactly one record `r₂` with
identity key `K`, and `D1` also contains a record with key `K`, then the
merge contains exactly one record with key `K`, namely `r₂` (keep-last: the
incoming side wins). -/
theorem merge_dedup_keeps_incoming (D₁ D₂ : Option (List RawRow))
    (K : IdKey) (r₁ r₂ : Row)
    (h₁ : r₁ ∈ _standardize D₁) (hk₁ : identityKey r₁ = K)
    (h₂ : (_standardize D₂).filter (fun r => identityKey r == K) = [r₂]) :
    (merge_dedup D₁ D₂).filter (fun r => identityKey r == K) = [r₂] := by
  have hcalc : (dropDupKeepLast (_standardize D₁ ++ _standardize D₂)).filter
      (fun r => identityKey r == K) = [r₂] := by
    rw [filter_dropDupKeepLast, List.filter_append, h₂, List.getLast?_concat]
    rfl
  have hperm := (sortByDate_perm
    (dropDupKeepLast (_standardize D₁ ++ _standardize D₂))).filter
      (fun r => identityKey r == K)
  rw [hcalc] at hperm
  exact List.perm_singleton.mp hperm

/-- Witness for C2: `sampleA` and `sampleB` share the identity key but
differ in the competition display name; the merge keeps `sampleB`'s
version. -/
theorem merge_dedup_keeps_incoming_witness :
    (merge_dedup (some [sampleA]) (some [sampleB])).filter
        (fun r => identityKey r == identityKey (coerceRow sampleB)) =
      [coerceRow sampleB] :=
  merge_dedup_keeps_incoming (some [sampleA]) (some [sampleB]) _
    (coerceRow sampleA) (coerceRow sampleB) (by decide) (by decide) (by decide)

/-- C3: `_standardize` is idempotent: re-standardizing a standardized
collection (fed back as a raw frame) returns it unchanged, in rows, values
and order, for every input including `None` and the empty frame. -/
theorem standardize_idempotent (R : Option (List RawRow)) :
    _standardize (some ((_standardize R).map Row.toRaw)) = _standardize R :=
  standardize_map_toRaw R

/-- A dataset row is CSV-safe when none of its string fields collides with
a `read_csv` NA sentinel (every value conforming to the data model — real
team and competition names — is CSV-safe). -/
def csvSafe (r : Row) : Prop :=
  r.HomeTeam ∉ naSentinels ∧ r.AwayTeam ∉ naSentinels ∧
    r.Competition ∉ naSentinels ∧ r.CompCode ∉ naSentinels

instance : DecidablePred csvSafe := by
  intro r
  unfold csvSafe
  infer_instance

/-- C4: the cache round-trip — loading after saving reconstructs exactly
the standardization of the dataset, for every valid dataset (validity
formalized as CSV-safety of the standardized string fields), including the
empty dataset. -/
theorem cache_round_trip (D : Option (List RawRow))
    (h : ∀ r ∈ _standardize D, csvSafe r) :
    load_cache (some (save_cache D)) = some (_standardize D) := by
  show some (_standardize (some (((_standardize D).map writeRec).map readRec))) = _
  rw [List.map_map]
  have hrt : (_standardize D).map (readRec ∘ writeRec) =
      (_standardize D).map Row.toRaw := by
    apply List.map_congr_left
    intro r hr
    obtain ⟨hh, ha, hc, hcc⟩ := h r hr
    show readRec (writeRec r) = Row.toRaw r
    simp [readRec, writeRec, Row.toRaw, readStrCell, readDateCell, readIntCell,
      hh, ha, hc, hcc]
  rw [hrt, standardize_map_toRaw]

/-- Witness for C4 at a concrete one-row dataset and at the empty dataset
(schema preserved with zero rows: the load yields `some []`, not `none`). -/
theorem cache_round_trip_witness :
    ((∀ r ∈ _standardize (some [sampleA]), csvSafe r) ∧
      load_cache (some (save_cache (some [sampleA]))) =
        some (_standardize (some [sampleA]))) ∧
      load_cache (some (save_cache none)) = some [] :=
  ⟨⟨by decide, cache_round_trip (some [sampleA]) (by decide)⟩,
    cache_round_trip none (by decide)⟩

/-- C5: when every requested (code, season) pair is already present,
`ingest_missing_seasons` issues zero remote calls (whatever the remote
would answer) and returns the dataset merged with nothing. -/
theorem ingest_skip_rule (fetch : String → Int → Except RemoteError Payload)
    (df_hist : Option (List RawRow)) (codes : List String) (seasons : List Int)
    (h : ∀ c ∈ codes, ∀ s ∈ seasons, (c, s) ∈ existing_comp_seasons df_hist) :
    ingest_missing_seasons fetch df_hist codes seasons =
      (Except.ok (merge_dedup df_hist none), 0) := by
  have hpairs : ∀ p ∈ codes.flatMap (fun code => seasons.map fun season => (code, season)),
      p ∈ existing_comp_seasons df_hist := by
    intro p hp
    rw [List.mem_flatMap] at hp
    obtain ⟨c, hc, hp2⟩ := hp
    rw [List.mem_map] at hp2
    obtain ⟨s, hs, rfl⟩ := hp2
    exact h c hc s hs
  simp only [ingest_missing_seasons]
  rw [ingestLoop_all_skipped fetch _ _ hpairs]
  rfl

/-- Witness for C5: the dataset already holds ("PL", 2022) and the request
is codes=["PL"], seasons=[2022]. -/
theorem ingest_skip_rule_witness :
    (∀ c ∈ ["PL"], ∀ s ∈ ([2022] : List Int),
      (c, s) ∈ existing_comp_seasons (some [sampleA])) ∧
      ingest_missing_seasons (fun _ _ => Except.ok ⟨[]⟩) (some [sampleA])
          ["PL"] [2022] =
        (Except.ok (merge_dedup (some [sampleA]) none), 0) :=
  ⟨by decide, ingest_skip_rule _ _ _ _ (by decide)⟩

/-- C6: the Recency Refresher issues its one query over the window
[today - 7 days, today] (both calendar-date endpoints sent); concretely,
2024-06-15 minus 7 days is 2024-06-08. -/
theorem refresh_window_seven_days (fetchOracle : DateQuery → Payload)
    (today : Int) (df_hist : Option (List RawRow)) (codes : List String) :
    (∃ q, (refresh_last_7_days fetchOracle today df_hist codes).2 = [q] ∧
      q.dateFrom = today - 7 ∧ q.dateTo = today) ∧
      daysFromCivil 2024 6 15 - 7 = daysFromCivil 2024 6 8 :=
  ⟨⟨_, rfl, rfl, rfl⟩, by decide⟩

/-- C7, counterexample: with an empty competition-code list the query's
`competitions` parameter is omitted entirely (the empty join is falsy), not
set to the comma-join of the given codes. -/
theorem refresh_empty_codes_unrestricted :
    ((refresh_last_7_days (fun _ => ⟨[]⟩) 0 none []).2.map
        (fun q => q.competitions)) ≠
      [some (String.intercalate "," [])] := by
  decide

/-- C7 (amended): every refresh issues exactly one remote call, restricted
to the computed date range and to status FINISHED; the `competitions`
parameter carries the comma-join of the caller's codes in order when that
join is non-empty, and is omitted when the code list is empty. -/
theorem refresh_single_call_params (fetchOracle : DateQuery → Payload)
    (today : Int) (df_hist : Option (List RawRow)) (codes : List String) :
    ∃ q, (refresh_last_7_days fetchOracle today df_hist codes).2 = [q] ∧
      q.dateFrom = today - 7 ∧ q.dateTo = today ∧ q.status = "FINISHED" ∧
      q.competitions = (if String.intercalate "," codes = "" then none
        else some (String.intercalate "," codes)) := by
  refine ⟨_, rfl, rfl, rfl, rfl, ?_⟩
  show (fetch_matches_by_date_params (today - 7) today
    (some (String.intercalate "," codes))).competitions = _
  by_cases hj : String.intercalate "," codes = ""
  · simp [fetch_matches_by_date_params, hj]
  · simp [fetch_matches_by_date_params, hj]

/-- C8: the Normalizer emits one record per entry passing all three checks
(status FINISHED, both full-time scores present, timestamp parsed) and
silently drops every other entry; in particular, one complete and one
score-missing finished match normalize to exactly one record. -/
theorem normalize_drop_rule :
    (∀ (p : Payload) (hint : Option Int),
      _normalize_payload p hint = (p.matchList.filter emitTest).map (entryRecord hint)) ∧
      (_normalize_payload examplePayload none).length = 1 :=
  ⟨fun p hint => normalizeLoop_eq hint p.matchList, by decide⟩

/-- C9: if some requested missing pair's remote fetch fails, the whole
ingestion aborts with the remote error: no merge result is produced, the
session dataset and the durable cache are byte-identical to before. -/
theorem ingest_abort_unchanged (fetch : String → Int → Except RemoteError Payload)
    (codes : List String) (seasons : List Int) (st : AppState)
    (c : String) (s : Int) (e : RemoteError)
    (hc : c ∈ codes) (hs : s ∈ seasons)
    (hmiss : (c, s) ∉ existing_comp_seasons (currentDf st))
    (herr : fetch c s = Except.error e) :
    (∃ e', (ingest_missing_seasons fetch (currentDf st) codes seasons).1 =
      Except.error e') ∧ ingestButton fetch codes seasons st = st := by
  have hmem : (c, s) ∈ codes.flatMap (fun code => seasons.map fun season => (code, season)) :=
    List.mem_flatMap.mpr ⟨c, hc, List.mem_map.mpr ⟨s, hs, rfl⟩⟩
  obtain ⟨e', he'⟩ := ingestLoop_error_of_mem fetch
    (existing_comp_seasons (currentDf st)) _ c s e hmem hmiss herr
  have hfst := ingest_fst_error fetch (currentDf st) codes seasons e' he'
  refine ⟨⟨e', hfst⟩, ?_⟩
  have hx : ingest_missing_seasons fetch (currentDf st) codes seasons =
      (Except.error e',
        (ingest_missing_seasons fetch (currentDf st) codes seasons).2) := by
    rw [← hfst]
  simp only [ingestButton]
  rw [hx]

/-- Witness for C9: a failing remote on a missing ("PL", 2023) pair leaves
the concrete session state untouched. -/
theorem ingest_abort_unchanged_witness :
    (∃ e', (ingest_missing_seasons failFetch (currentDf sampleState)
      ["PL"] [2023]).1 = Except.error e') ∧
      ingestButton failFetch ["PL"] [2023] sampleState = sampleState :=
  ingest_abort_unchanged failFetch ["PL"] [2023] sampleState "PL" 2023
    (RemoteError.httpError "500") (by decide) (by decide) (by decide) rfl

/-- C10: standardization keeps exactly the rows whose date parsed and whose
teams and goal counts are present (each kept row being the column-coerced
image of its source row); a null competition code or display name does not
drop a row — it is coerced to its string rendering ("None" for Python
`None`, "nan" for `NaN`) and participates in `existing_comp_seasons` under
that placeholder. -/
theorem standardize_null_retention :
    (∀ (rows : List RawRow) (r' : Row),
      r' ∈ _standardize (some rows) ↔ ∃ r₀ ∈ rows,
        (r₀.Date ≠ none ∧ r₀.HomeTeam.isna = false ∧ r₀.AwayTeam.isna = false ∧
          r₀.FTHG ≠ none ∧ r₀.FTAG ≠ none) ∧ r' = coerceRow r₀) ∧
    (∀ (rows : List RawRow) (r₀ : RawRow), r₀ ∈ rows → keepRow r₀ = true →
      r₀.CompCode = PVal.pyNone →
      ("None", r₀.Season.getD (-1)) ∈ existing_comp_seasons (some rows)) ∧
    (∀ (rows : List RawRow) (r₀ : RawRow), r₀ ∈ rows → keepRow r₀ = true →
      r₀.CompCode = PVal.nan →
      ("nan", r₀.Season.getD (-1)) ∈ existing_comp_seasons (some rows)) := by
  refine ⟨?_, ?_, ?_⟩
  · intro rows r'
    rw [mem_standardize]
    constructor
    · rintro ⟨r₀, hmem, hkeep, rfl⟩
      exact ⟨r₀, hmem, (keepRow_iff r₀).mp hkeep, rfl⟩
    · rintro ⟨r₀, hmem, hcond, rfl⟩
      exact ⟨r₀, hmem, (keepRow_iff r₀).mpr hcond, rfl⟩
  · intro rows r₀ hmem hkeep hcode
    refine List.mem_map.mpr ⟨coerceRow r₀, mem_standardize.mpr ⟨r₀, hmem, hkeep, rfl⟩, ?_⟩
    show (pyStrip (r₀.CompCode.astypeStr), r₀.Season.getD (-1)) = _
    rw [hcode]
    show (pyStrip "None", r₀.Season.getD (-1)) = ("None", r₀.Season.getD (-1))
    rw [show pyStrip "None" = "None" from by decide]
  · intro rows r₀ hmem hkeep hcode
    refine List.mem_map.mpr ⟨coerceRow r₀, mem_standardize.mpr ⟨r₀, hmem, hkeep, rfl⟩, ?_⟩
    show (pyStrip (r₀.CompCode.astypeStr), r₀.Season.getD (-1)) = _
    rw [hcode]
    show (pyStrip "nan", r₀.Season.getD (-1)) = ("nan", r₀.Season.getD (-1))
    rw [show pyStrip "nan" = "nan" from by decide]

/-- Witness for C10: a concrete row with a Python-`None` competition code is
retained and registers under ("None", -1). -/
theorem standardize_null_retention_witness :
    ("None", (-1 : Int)) ∈ existing_comp_seasons (some [nullCodeRow]) :=
  standardize_null_retention.2.1 [nullCodeRow] nullCodeRow (by decide)
    (by decide) (by decide)

end SoccerApp
